import Mathlib

/-!
Verification of the PDF-to-Excel extraction pipeline
(deepseek / gemini / anthropic vendor variants).

We shallowly embed the response-normalization cascade, the delimited-text
fallback, the per-page driver loop, and the workbook assembly step of the
three Python variants as executable Lean functions over `List Char`
(modelling Python strings), and prove or refute the frozen specification
claims about them.
-/

set_option maxRecDepth 4096

/-! ## Characters and Python-string utilities -/

/-- The apostrophe character (Python single quote). -/
def sqCh : Char := Char.ofNat 39

/-- The backtick character (markdown fence delimiter). -/
def btick : Char := Char.ofNat 96

/-- Whitespace for Python `str.strip()` (space, tab, LF, CR, VT, FF). -/
def pyWsB (c : Char) : Bool :=
  c = ' ' || c = '\t' || c = '\n' || c = '\r' || c = '\x0b' || c = '\x0c'

/-- Whitespace class of the regex `\s` (ASCII). -/
def reWsB (c : Char) : Bool :=
  c = ' ' || c = '\t' || c = '\n' || c = '\r' || c = '\x0b' || c = '\x0c'

/-- JSON whitespace accepted between tokens by Python `json.loads`. -/
def jWsB (c : Char) : Bool :=
  c = ' ' || c = '\t' || c = '\n' || c = '\r'

/-- Drop leading Python whitespace (the left half of `str.strip()`). -/
def trimLead (s : List Char) : List Char := s.dropWhile pyWsB

/-- Drop trailing Python whitespace (the right half of `str.strip()`). -/
def trimTrail (s : List Char) : List Char := (s.reverse.dropWhile pyWsB).reverse

/-- Python `str.strip()`. -/
def pyStrip (s : List Char) : List Char := trimLead (trimTrail s)

/-- Python `str.split('\n')`. -/
def splitNl : List Char → List (List Char)
  | [] => [[]]
  | c :: r =>
    if c = '\n' then [] :: splitNl r
    else
      match splitNl r with
      | p :: ps => (c :: p) :: ps
      | [] => [[c]]

/-- Fuelled worker for Python `str.replace(pat, rep)` (left-to-right,
non-overlapping). -/
def replaceAllF (pat rep : List Char) : Nat → List Char → List Char
  | 0, s => s
  | _ + 1, [] => []
  | f + 1, c :: rest =>
    if pat.isPrefixOf (c :: rest) && !pat.isEmpty then
      rep ++ replaceAllF pat rep f ((c :: rest).drop pat.length)
    else
      c :: replaceAllF pat rep f rest

/-- Python `str.replace(pat, rep)`. -/
def replaceAll (pat rep s : List Char) : List Char :=
  replaceAllF pat rep (s.length + 1) s

/-! ## The Python value model (result of `json.loads`) -/

/-- A Python value as produced by `json.loads`: strings, numbers (kept as
their source lexeme), booleans, `None`, lists and dicts (assoc lists in
insertion order, keys already deduplicated as Python dicts do). -/
inductive PyVal where
  | str (s : List Char)
  | num (lexeme : List Char)
  | bool (b : Bool)
  | null
  | list (xs : List PyVal)
  | dict (kvs : List (List Char × PyVal))

/-- Dict insertion with Python semantics: an existing key keeps its
position and gets the new value; a new key is appended. -/
def insertKV (kvs : List (List Char × PyVal)) (k : List Char) (v : PyVal) :
    List (List Char × PyVal) :=
  match kvs with
  | [] => [(k, v)]
  | (k', v') :: r => if k' = k then (k', v) :: r else (k', v') :: insertKV r k v

/-- Assoc-list lookup used for `d[k]` / `k in d`. -/
def pyFind : List (List Char × PyVal) → List Char → Option PyVal
  | [], _ => none
  | (k', v) :: r, k => if k' = k then some v else pyFind r k

/-- Python `d[k]` on a dict (`none` on anything else or a missing key). -/
def pyGet : PyVal → List Char → Option PyVal
  | .dict kvs, k => pyFind kvs k
  | _, _ => none

/-- Python `k in d` for a dict. -/
def hasKeyPy (d : PyVal) (k : List Char) : Bool := (pyGet d k).isSome

/-- Python `len(v)`: defined for strings, lists and dicts; `none` models
the `TypeError` raised on numbers, booleans and `None`. -/
def pyLen : PyVal → Option Nat
  | .str s => some s.length
  | .list xs => some xs.length
  | .dict kvs => some kvs.length
  | _ => none

example : pyFind [("a".data, .null)] "a".data = some .null := rfl
example : hasKeyPy (.dict [("a".data, .num "1".data)]) "b".data = false := rfl

/-! ## `json.loads` model

A fuelled recursive-descent reading of the strict JSON grammar that
Python's `json.loads` accepts (default `strict=True`): double-quoted
strings with the standard escapes and no raw control characters, numbers,
`true`/`false`/`null`, arrays and objects.  The fuel given by `pyLoads`
is always sufficient, since every recursive call consumes input. -/

/-- Skip JSON inter-token whitespace. -/
def skipWs (s : List Char) : List Char := s.dropWhile jWsB

/-- Value of a hex digit, if it is one. -/
def hexVal (c : Char) : Option Nat :=
  if '0' ≤ c ∧ c ≤ '9' then some (c.toNat - '0'.toNat)
  else if 'a' ≤ c ∧ c ≤ 'f' then some (c.toNat - 'a'.toNat + 10)
  else if 'A' ≤ c ∧ c ≤ 'F' then some (c.toNat - 'A'.toNat + 10)
  else none

/-- Single-character JSON string escapes. -/
def escMap (c : Char) : Option Char :=
  if c = '"' then some '"'
  else if c = '\\' then some '\\'
  else if c = '/' then some '/'
  else if c = 'b' then some '\x08'
  else if c = 'f' then some '\x0c'
  else if c = 'n' then some '\n'
  else if c = 'r' then some '\r'
  else if c = 't' then some '\t'
  else none

/-- Fuelled JSON string-body scan (after the opening quote): returns the
decoded content and the input after the closing quote.  Raw control
characters are rejected, as `json.loads` does in strict mode. -/
def pStrF : Nat → List Char → Option (List Char × List Char)
  | 0, _ => none
  | _ + 1, [] => none
  | f + 1, c :: rest =>
    if c = '"' then some ([], rest)
    else if c = '\\' then
      match rest with
      | [] => none
      | e :: r2 =>
        if e = 'u' then
          match r2 with
          | h1 :: h2 :: h3 :: h4 :: r3 =>
            match hexVal h1, hexVal h2, hexVal h3, hexVal h4 with
            | some a, some b, some cc, some d =>
              (pStrF f r3).map (fun (t, rr) =>
                (Char.ofNat (((a * 16 + b) * 16 + cc) * 16 + d) :: t, rr))
            | _, _, _, _ => none
          | _ => none
        else
          match escMap e with
          | some ch => (pStrF f r2).map (fun (t, rr) => (ch :: t, rr))
          | none => none
    else if c.toNat < 32 then none
    else (pStrF f rest).map (fun (t, rr) => (c :: t, rr))

/-- JSON string body scan with enough fuel. -/
def pStrRun (s : List Char) : Option (List Char × List Char) :=
  pStrF (s.length + 1) s

/-- Optional fraction and exponent of a JSON number (regex semantics:
each is consumed only when fully present). -/
def pFracExp (s : List Char) : List Char × List Char :=
  let (fr, s1) :=
    match s with
    | '.' :: r =>
      let ds := r.takeWhile Char.isDigit
      if ds = [] then ([], s) else ('.' :: ds, r.dropWhile Char.isDigit)
    | _ => ([], s)
  let (ex, s2) :=
    match s1 with
    | c :: r =>
      if c = 'e' ∨ c = 'E' then
        let (es, r1) :=
          match r with
          | d :: rr => if d = '+' ∨ d = '-' then ([d], rr) else ([], r)
          | [] => ([], r)
        let ds := r1.takeWhile Char.isDigit
        if ds = [] then ([], s1)
        else (c :: (es ++ ds), r1.dropWhile Char.isDigit)
      else ([], s1)
    | [] => ([], s1)
  (fr ++ ex, s2)

/-- JSON number lexeme (`-?(0|[1-9][0-9]*)(\.[0-9]+)?([eE][+-]?[0-9]+)?`). -/
def pNum (s : List Char) : Option (List Char × List Char) :=
  match s with
  | [] => none
  | c0 :: r0 =>
    let (sgn, s1) := if c0 = '-' then ([c0], r0) else (([] : List Char), s)
    match s1 with
    | [] => none
    | c :: r =>
      if c = '0' then
        let (tl, rest) := pFracExp r
        some (sgn ++ [c] ++ tl, rest)
      else if c.isDigit then
        let ds := s1.takeWhile Char.isDigit
        let (tl, rest) := pFracExp (s1.dropWhile Char.isDigit)
        some (sgn ++ ds ++ tl, rest)
      else none

mutual

/-- Fuelled JSON value: expects the input to start at a value token. -/
def pV : Nat → List Char → Option (PyVal × List Char)
  | 0, _ => none
  | f + 1, s =>
    match s with
    | [] => none
    | '"' :: r => (pStrRun r).map (fun (cs, rr) => (.str cs, rr))
    | '{' :: r =>
      let r1 := skipWs r
      match r1 with
      | '}' :: r2 => some (.dict [], r2)
      | _ => pMembers f r1 []
    | '[' :: r =>
      let r1 := skipWs r
      match r1 with
      | ']' :: r2 => some (.list [], r2)
      | _ => pItems f r1 []
    | 't' :: 'r' :: 'u' :: 'e' :: r => some (.bool true, r)
    | 'f' :: 'a' :: 'l' :: 's' :: 'e' :: r => some (.bool false, r)
    | 'n' :: 'u' :: 'l' :: 'l' :: r => some (.null, r)
    | c :: _ =>
      if c = '-' ∨ c.isDigit then (pNum s).map (fun (cs, rr) => (.num cs, rr))
      else none

/-- Fuelled JSON object members (input starts at a key). -/
def pMembers : Nat → List Char → List (List Char × PyVal) →
    Option (PyVal × List Char)
  | 0, _, _ => none
  | f + 1, s, acc =>
    match s with
    | '"' :: r =>
      match pStrRun r with
      | none => none
      | some (k, r1) =>
        match skipWs r1 with
        | ':' :: r2 =>
          match pV f (skipWs r2) with
          | none => none
          | some (v, r3) =>
            match skipWs r3 with
            | ',' :: r4 => pMembers f (skipWs r4) (insertKV acc k v)
            | '}' :: r4 => some (.dict (insertKV acc k v), r4)
            | _ => none
        | _ => none
    | _ => none

/-- Fuelled JSON array items (input starts at a value). -/
def pItems : Nat → List Char → List PyVal → Option (PyVal × List Char)
  | 0, _, _ => none
  | f + 1, s, acc =>
    match pV f s with
    | none => none
    | some (v, r1) =>
      match skipWs r1 with
      | ',' :: r2 => pItems f (skipWs r2) (acc ++ [v])
      | ']' :: r2 => some (.list (acc ++ [v]), r2)
      | _ => none

end

/-- Python `json.loads`: parse one JSON document, requiring only
whitespace after it; `none` models `json.JSONDecodeError`. -/
def pyLoads (s : List Char) : Option PyVal :=
  match pV (4 * s.length + 16) (skipWs s) with
  | some (v, rest) => if skipWs rest = [] then some v else none
  | none => none

example : pyLoads "null".data = some .null := rfl
example : pyLoads "\x7b\x7d".data = some (.dict []) := rfl
example :
    pyLoads " \x7b \"a\" : [1, \"x\"] \x7d ".data =
      some (.dict [("a".data, .list [.num "1".data, .str "x".data])]) := rfl
example : pyLoads "hello".data = none := rfl
example : pyLoads "\x7b\"a\": 1,\x7d".data = none := rfl
example : pyLoads "\x7b\"a\": -12.5e+3\x7d".data =
    some (.dict [("a".data, .num "-12.5e+3".data)]) := rfl

/-! ## Regex helpers used by the deepseek variant -/

/-- Is `c` an identifier character (`[a-zA-Z0-9_]`)? -/
def identChar (c : Char) : Bool :=
  ('a' ≤ c && c ≤ 'z') || ('A' ≤ c && c ≤ 'Z') || c.isDigit || c = '_'

/-- Is `c` an identifier start character (`[a-zA-Z_]`)? -/
def identStart (c : Char) : Bool :=
  ('a' ≤ c && c ≤ 'z') || ('A' ≤ c && c ≤ 'Z') || c = '_'

/-- Fuelled worker for
`re.sub(r'([{,]\s*)([a-zA-Z_][a-zA-Z0-9_]*)(\s*:)', r'\1"\2"\3', s)`:
quote bare identifier keys after `{` or `,`. -/
def bareKeyF : Nat → List Char → List Char
  | 0, s => s
  | _ + 1, [] => []
  | f + 1, c :: rest =>
    if c = '{' ∨ c = ',' then
      let w1 := rest.takeWhile reWsB
      let r1 := rest.dropWhile reWsB
      let idt := r1.takeWhile identChar
      let r2 := r1.dropWhile identChar
      let w2 := r2.takeWhile reWsB
      let r3 := r2.dropWhile reWsB
      match idt, r3 with
      | i0 :: itl, ':' :: r4 =>
        if identStart i0 then
          c :: (w1 ++ ['"'] ++ (i0 :: itl) ++ ['"'] ++ w2 ++ [':']) ++
            bareKeyF f r4
        else c :: bareKeyF f rest
      | _, _ => c :: bareKeyF f rest
    else c :: bareKeyF f rest

/-- Quote bare identifier keys (deepseek `_try_fix_json` step 2). -/
def bareKeySub (s : List Char) : List Char := bareKeyF (s.length + 1) s

/-- Fuelled worker for `re.sub(r',\s*X', 'X', s)` where `X` is a closing
bracket: strip a trailing comma before `close`. -/
def trailCommaF (close : Char) : Nat → List Char → List Char
  | 0, s => s
  | _ + 1, [] => []
  | f + 1, c :: rest =>
    if c = ',' ∧ (rest.dropWhile reWsB).headD ' ' = close ∧
        (rest.dropWhile reWsB) ≠ [] then
      close :: trailCommaF close f (rest.dropWhile reWsB).tail
    else c :: trailCommaF close f rest

/-- `re.sub(r',\s*}', '}', s)` / `re.sub(r',\s*]', ']', s)`. -/
def trailCommaSub (close : Char) (s : List Char) : List Char :=
  trailCommaF close (s.length + 1) s

/-- The regex delimiter `\t|,\s*|\s\s+` (deepseek `_extract_table_from_text`):
fuelled splitter with `re.split` semantics (leftmost match, first
alternative, greedy whitespace runs). -/
def splitDelimF : Nat → List Char → List Char → List (List Char)
  | _, cur, [] => [cur]
  | 0, cur, s => [cur ++ s]
  | f + 1, cur, c :: rest =>
    if c = '\t' then cur :: splitDelimF f [] rest
    else if c = ',' then cur :: splitDelimF f [] (rest.dropWhile reWsB)
    else if reWsB c && reWsB (rest.headD 'x') then
      cur :: splitDelimF f [] (rest.dropWhile reWsB)
    else splitDelimF f (cur ++ [c]) rest

/-- `re.split(r'\t|,\s*|\s\s+', s)`. -/
def splitRe (s : List Char) : List (List Char) :=
  splitDelimF (s.length + 1) [] s

/-- Strip markdown code fences the way `_call_deepseek_api` does:
`re.sub(r'^```json\s*', ...)`, then `re.sub(r'^```\s*', ...)`, then
`re.sub(r'\s*```$', ...)`, each with empty replacement. -/
def mdStrip (s : List Char) : List Char :=
  let fence3 : List Char := [btick, btick, btick]
  let fenceJson : List Char := fence3 ++ "json".data
  let s1 := if fenceJson.isPrefixOf s then (s.drop 7).dropWhile reWsB else s
  let s2 := if fence3.isPrefixOf s1 then (s1.drop 3).dropWhile reWsB else s1
  let r := s2.reverse
  if fence3.isPrefixOf r then ((r.drop 3).dropWhile reWsB).reverse else s2

/-- `re.search(r'\{.*\}', content, re.DOTALL)`: the substring from the
first `{` to the last `}`, when the latter lies strictly after the
former; `none` when there is no such span. -/
def jsonExtractRe (s : List Char) : Option (List Char) :=
  let a := s.dropWhile (fun c => c != '{')
  let b := (a.reverse.dropWhile (fun c => c != '}')).reverse
  if b = [] then none else some b

example : jsonExtractRe "ab \x7b x \x7d cd".data = some "\x7b x \x7d".data := rfl
example : jsonExtractRe "\x7d\x7b".data = none := rfl
example : jsonExtractRe "no braces".data = none := rfl
example : splitRe "a\tb,  c   d".data = ["a".data, "b".data, "c".data, "d".data] := rfl
example : splitRe "a ,b".data = ["a ".data, "b".data] := rfl
example : bareKeySub "\x7bheaders: 1, rows : 2\x7d".data =
    "\x7b\"headers\": 1, \"rows\" : 2\x7d".data := rfl
example : trailCommaSub ']' "[[1],]".data = "[[1]]".data := rfl

/-! ## deepseek `_try_fix_json` and its placeholders -/

/-- Dict key `"headers"`. -/
def hKey : List Char := "headers".data

/-- Dict key `"rows"`. -/
def rKey : List Char := "rows".data

/-- The cell `"Trang N"` naming a page. -/
def trangStr (p : Nat) : List Char := "Trang ".data ++ (Nat.repr p).data

/-- Placeholder returned when the strictly parsed JSON lacks a required
field (deepseek: `"Không thể phân tích cấu trúc bảng"`). -/
def structPlaceholder (p : Nat) : PyVal :=
  .dict [(hKey, .list [.str (trangStr p)]),
         (rKey, .list [.list [.str "Không thể phân tích cấu trúc bảng".data]])]

/-- Placeholder returned when `_try_fix_json` cannot repair the JSON
(deepseek: `"Lỗi phân tích JSON"`). -/
def fixPlaceholder (p : Nat) : PyVal :=
  .dict [(hKey, .list [.str (trangStr p)]),
         (rKey, .list [.list [.str "Lỗi phân tích JSON".data]])]

/-- Placeholder returned when the delimited-text fallback finds no
header line (deepseek: `"Không tìm thấy bảng dữ liệu trong response"`). -/
def notFoundPlaceholder (p : Nat) : PyVal :=
  .dict [(hKey, .list [.str (trangStr p)]),
         (rKey, .list [.list [.str "Không tìm thấy bảng dữ liệu trong response".data]])]

/-- Repair step 1 of `_try_fix_json`: escape literal newlines, tabs and
carriage returns everywhere (`str.replace` on `\n`, `\t`, `\r`). -/
def escapeCtl (s : List Char) : List Char :=
  replaceAll ['\r'] ['\\', 'r']
    (replaceAll ['\t'] ['\\', 't']
      (replaceAll ['\n'] ['\\', 'n'] s))

/-- Repair step 3 of `_try_fix_json`: replace every single quote by a
double quote. -/
def sqToDq (s : List Char) : List Char := replaceAll [sqCh] ['"'] s

/-- All four repair transformations of `_try_fix_json`, in source order:
escape control characters, quote bare keys, single-to-double quotes,
strip trailing commas before `}` and before `]`. -/
def applyFixes (s : List Char) : List Char :=
  trailCommaSub ']' (trailCommaSub '}' (sqToDq (bareKeySub (escapeCtl s))))

/-- deepseek `_try_fix_json`: apply all four transformations, then
attempt a single `json.loads`; on failure return the repair placeholder.
The parsed value is returned without any field validation. -/
def tryFixJson (js : List Char) (p : Nat) : PyVal :=
  match pyLoads (applyFixes js) with
  | some d => d
  | none => fixPlaceholder p

/-- The syntax-repair stage as the specification describes it: re-attempt
a parse after each of the four transformations and stop at the first
success.  (Spec-side definition, for comparison with `tryFixJson`.) -/
def tryFixJsonFirstSuccess (js : List Char) (p : Nat) : PyVal :=
  let t1 := escapeCtl js
  match pyLoads t1 with
  | some d => d
  | none =>
    let t2 := bareKeySub t1
    match pyLoads t2 with
    | some d => d
    | none =>
      let t3 := sqToDq t2
      match pyLoads t3 with
      | some d => d
      | none =>
        let t4 := trailCommaSub ']' (trailCommaSub '}' t3)
        match pyLoads t4 with
        | some d => d
        | none => fixPlaceholder p

/-! ## deepseek `_extract_table_from_text` (delimited-text fallback) -/

/-- Does a line split (regex `\t|,\s*|\s\s+`) into more than one part,
all non-empty after stripping?  This is the header-line test of
`_extract_table_from_text`. -/
def linePredB (l : List Char) : Bool :=
  let parts := splitRe (pyStrip l)
  decide (parts.length > 1) && parts.all (fun q => !(pyStrip q).isEmpty)

/-- The headers extracted from a header line: the split parts, each
stripped. -/
def mkHeaders (l : List Char) : List (List Char) :=
  (splitRe (pyStrip l)).map pyStrip

/-- The rows built from the lines after the header line: every line that
is non-empty after stripping is split the same way, truncated to the
header count if it has at least that many parts, otherwise padded with
empty strings (mirrors the `if/elif` of the source). -/
def mkRows (n : Nat) (ls : List (List Char)) : List (List (List Char)) :=
  ls.filterMap (fun l =>
    let l' := pyStrip l
    if l'.isEmpty then none
    else
      let rp := splitRe l'
      if n ≤ rp.length then some (rp.take n)
      else if 0 < rp.length then some (rp ++ List.replicate (n - rp.length) [])
      else none)

/-- The header-scan loop of `_extract_table_from_text`: find the first
header-like line, then build headers and rows. -/
def extractCore : List (List Char) → Option (List (List Char) × List (List (List Char)))
  | [] => none
  | l :: rest =>
    if linePredB l then
      let hs := mkHeaders l
      some (hs, mkRows hs.length rest)
    else extractCore rest

/-- deepseek `_extract_table_from_text`: delimited-text fallback on the
raw response, with the "no table found" placeholder when no header-like
line exists.  The function's bare `except` branch ("Lỗi xử lý response")
is unreachable in a pure semantics — splitting and list operations cannot
raise — and is therefore not modelled. -/
def extractTableFromText (text : List Char) (p : Nat) : PyVal :=
  match extractCore (splitNl (pyStrip text)) with
  | some (hs, rows) =>
      .dict [(hKey, .list (hs.map .str)),
             (rKey, .list (rows.map (fun row => .list (row.map .str))))]
  | none => notFoundPlaceholder p

example :
    extractCore (splitNl (pyStrip "Col1\tCol2\nval1\tval2".data)) =
      some (["Col1".data, "Col2".data], [["val1".data, "val2".data]]) := rfl

/-! ## deepseek `_call_deepseek_api` response handling -/

/-- The substring handed to `json.loads` by `_call_deepseek_api`:
strip the content, locate `\{.*\}`, strip it and remove markdown
fences. -/
def extractStage (content : List Char) : Option (List Char) :=
  (jsonExtractRe (pyStrip content)).map (fun j => mdStrip (pyStrip j))

/-- The full response-normalization step of `_call_deepseek_api`, from
the model's text content to the value handed to `_save_to_excel`:
`some d` models a returned dict, `none` models the `return None` taken
when `len(data['headers'])`/`len(data['rows'])` raises `TypeError`
inside the surrounding `except Exception` handler. -/
def deepseekNormalize (content : List Char) (p : Nat) : Option PyVal :=
  match extractStage content with
  | some js =>
    match pyLoads js with
    | some d =>
      if hasKeyPy d hKey && hasKeyPy d rKey then
        match pyLen ((pyGet d hKey).getD .null), pyLen ((pyGet d rKey).getD .null) with
        | some _, some _ => some d
        | _, _ => none
      else some (structPlaceholder p)
    | none => some (tryFixJson js p)
  | none => some (extractTableFromText content p)

/-! ## gemini `_call_gemini_api` response handling -/

/-- gemini `_fallback_data`: a labelled single-cell table holding (a
prefix of) the cleaned response text. -/
def geminiFallbackData (t : List Char) : PyVal :=
  .dict [(hKey, .list [.str "Dữ liệu thô".data]),
         (rKey, .list [.list [.str (t.take 5000)]])]

/-- The response-normalization step of `_call_gemini_api`, from
`response.text` to the value handed to `_save_to_excel`: empty text and
any `json.loads` failure return `none` (the `except` path), a parsed
dict with both fields is size-checked and returned, and a parsed value
missing a field becomes `_fallback_data`. -/
def geminiNormalize (text : List Char) : Option PyVal :=
  if text.isEmpty then none
  else
    let fence3 : List Char := [btick, btick, btick]
    let j := pyStrip (replaceAll fence3 []
      (replaceAll (fence3 ++ "json".data) [] (pyStrip text)))
    match pyLoads j with
    | none => none
    | some d =>
      if hasKeyPy d hKey && hasKeyPy d rKey then
        match pyLen ((pyGet d hKey).getD .null), pyLen ((pyGet d rKey).getD .null) with
        | some _, some _ => some d
        | _, _ => none
      else some (geminiFallbackData j)

example : geminiNormalize "hello".data = none := rfl
example :
    deepseekNormalize "\x7b\"headers\": [\"A\"], \"rows\": [[\"1\"]]\x7d".data 1 =
      some (.dict [(hKey, .list [.str "A".data]),
                   (rKey, .list [.list [.str "1".data]])]) := rfl

/-! ## Assembly (`step3_merge_excel`) -/

/-- Sheet title used by the merge step: `"Trang " + str(i)`, truncated to 28
characters plus an ellipsis when longer than Excel's 31-character limit. -/
def sheetTitle (i : Nat) : List Char :=
  let t := "Trang ".data ++ (Nat.repr i).data
  if t.length > 31 then t.take 28 ++ "...".data else t

/-- Build the destination sheets: one per (valid) source file, titled by
its 1-based position in the filtered sequence. -/
def mkSheets (i : Nat) : List α → List (List Char × α)
  | [] => []
  | a :: r => (sheetTitle i, a) :: mkSheets (i + 1) r

/-- deepseek/gemini `step3_merge_excel`: filter out the `None` outcomes,
return `none` (the "nothing to merge" path) when no sheet would be
produced, otherwise the ordered, positionally titled sheet list. -/
def step3MergeExcel (files : List (Option α)) : Option (List (List Char × α)) :=
  if files.isEmpty then none
  else
    let valid := files.filterMap id
    if valid.isEmpty then none
    else
      let sheets := mkSheets 1 valid
      if sheets.isEmpty then none else some sheets

example :
    step3MergeExcel [some (0 : Nat), none, some 1] =
      some [("Trang 1".data, 0), ("Trang 2".data, 1)] := rfl

/-! ## Drivers -/

/-- The page loop of deepseek `run_full_process` (also gemini `run`):
process every page in order, appending each outcome. -/
def runDriverAux (proc : β → Nat → γ) : List β → Nat → List γ → List γ
  | [], _, acc => acc
  | pg :: rest, i, acc => runDriverAux proc rest (i + 1) (acc ++ [proc pg i])

/-- deepseek/gemini driver: one processing call per page, pages numbered
from 1, all pages attempted. -/
def runDriver (proc : β → Nat → γ) (pages : List β) : List γ :=
  runDriverAux proc pages 1 []

/-- Specification-side sequential map: the outcome list is the pages
mapped in order with their 1-based indices. -/
def seqOutcomes (proc : β → Nat → γ) : Nat → List β → List γ
  | _, [] => []
  | i, pg :: rest => proc pg i :: seqOutcomes proc (i + 1) rest

/-- The page loop of the anthropic variant's `run_full_process`: after
each page except the last, the user is asked whether to continue
(`ans i`); a negative answer breaks out of the loop. -/
def anthDriverAux (proc : β → Nat → γ) (ans : Nat → Bool) :
    List β → Nat → List γ → List γ
  | [], _, acc => acc
  | pg :: rest, i, acc =>
    let acc2 := acc ++ [proc pg i]
    match rest with
    | [] => acc2
    | _ :: _ => if ans i then anthDriverAux proc ans rest (i + 1) acc2 else acc2

/-- anthropic driver with its interactive continuation prompts. -/
def anthDriver (proc : β → Nat → γ) (ans : Nat → Bool) (pages : List β) :
    List γ :=
  anthDriverAux proc ans pages 1 []

/-! ## The deepseek end-to-end run -/

/-- One `_call_deepseek_api` call: fails immediately when no API key is
configured, fails on a transport error (`net p = none`), otherwise
normalizes the response text of page `p`. -/
def deepseekApiCall (key : Option (List Char)) (net : Nat → Option (List Char))
    (p : Nat) : Option PyVal :=
  match key with
  | none => none
  | some _ =>
    match net p with
    | none => none
    | some content => deepseekNormalize content p

/-- The observable result of deepseek `run_full_process` up to the merge:
the split page files (step 1 always runs and yields one file per source
page) and the per-page outcomes (step 2). -/
structure DsRun (β : Type) where
  pageFiles : List β
  outcomes : List (Option PyVal)

/-- deepseek `run_full_process`, steps 1 and 2: split unconditionally,
then drive every page through `_call_deepseek_api`. -/
def deepseekRunFull (key : Option (List Char)) (net : Nat → Option (List Char))
    (doc : List β) : DsRun β :=
  { pageFiles := doc
    outcomes := runDriver (fun _ i => deepseekApiCall key net i) doc }

/-- deepseek `main` + `run_full_process` + `step3_merge_excel`: the final
merged workbook (if any) and the process exit status.  `main` has no
non-zero-exit path once processing starts — it ignores the return value
of `run_full_process` and falls off the end — so the exit status is 0
whether or not a workbook was produced. -/
def deepseekMainModel (key : Option (List Char)) (net : Nat → Option (List Char))
    (doc : List β) : Option (List (List Char × PyVal)) × Nat :=
  (step3MergeExcel (deepseekRunFull key net doc).outcomes, 0)

/-! ## The anthropic variant's header dict (Python surface syntax)

The header construction at `_call_claude_api` is a *dict display*; we
model the Python token stream of that expression and enough of Python's
expression grammar (implicit adjacent-string-literal concatenation, dict
and set displays) to decide whether it parses at all. -/

/-- Python tokens appearing in the header expression. -/
inductive PyTok where
  | lb | rb | col | com
  | strT (s : List Char)
  | idT (s : List Char)

/-- A parsed Python expression (the fragment we need). -/
inductive PyExpr where
  | strE (s : List Char)
  | varE (s : List Char)
  | setE (xs : List PyExpr)
  | dictE (kvs : List (PyExpr × PyExpr))

/-- Implicit concatenation of adjacent string literals, as the CPython
tokenizer-to-AST stage performs it. -/
def concatStrs : List PyTok → List PyTok
  | [] => []
  | .strT a :: r =>
    match concatStrs r with
    | .strT b :: r' => .strT (a ++ b) :: r'
    | r' => .strT a :: r'
  | t :: r => t :: concatStrs r

mutual

/-- Fuelled parse of one Python expression from the token stream. -/
def pE : Nat → List PyTok → Option (PyExpr × List PyTok)
  | 0, _ => none
  | f + 1, s =>
    match s with
    | .strT a :: r => some (.strE a, r)
    | .idT a :: r => some (.varE a, r)
    | .lb :: .rb :: r => some (.dictE [], r)
    | .lb :: r =>
      match pE f r with
      | none => none
      | some (e1, r1) =>
        match r1 with
        | .col :: r2 =>
          match pE f r2 with
          | none => none
          | some (v1, r3) => pEntries f r3 [(e1, v1)]
        | .com :: r2 => pSetItems f r2 [e1]
        | .rb :: r2 => some (.setE [e1], r2)
        | _ => none
    | _ => none

/-- Fuelled parse of the remaining `key: value` entries of a dict
display (supports a trailing comma, as Python does). -/
def pEntries : Nat → List PyTok → List (PyExpr × PyExpr) →
    Option (PyExpr × List PyTok)
  | 0, _, _ => none
  | f + 1, s, acc =>
    match s with
    | .rb :: r => some (.dictE acc, r)
    | .com :: .rb :: r => some (.dictE acc, r)
    | .com :: r =>
      match pE f r with
      | none => none
      | some (k, r1) =>
        match r1 with
        | .col :: r2 =>
          match pE f r2 with
          | none => none
          | some (v, r3) => pEntries f r3 (acc ++ [(k, v)])
        | _ => none
    | _ => none

/-- Fuelled parse of the remaining items of a set display. -/
def pSetItems : Nat → List PyTok → List PyExpr → Option (PyExpr × List PyTok)
  | 0, _, _ => none
  | f + 1, s, acc =>
    match s with
    | .rb :: r => some (.setE acc, r)
    | .com :: .rb :: r => some (.setE acc, r)
    | .com :: r =>
      match pE f r with
      | none => none
      | some (v, r1) => pSetItems f r1 (acc ++ [v])
    | _ => none

end

/-- Parse a complete Python expression from a token list (after implicit
string concatenation), requiring all tokens to be consumed. -/
def pyExprOfToks (toks : List PyTok) : Option PyExpr :=
  let ts := concatStrs toks
  match pE (2 * ts.length + 8) ts with
  | some (e, []) => some e
  | _ => none

/-- The token stream of the `headers = { ... }` expression at
`anthropic_pdf_to_excel_ai.py` lines 98–102, exactly as written: note
the missing comma between `"2023-06-01"` and `"x-api-key"`. -/
def anthHeaderToks : List PyTok :=
  [.lb,
   .strT "Content-Type".data, .col, .strT "application/json".data, .com,
   .strT "anthropic-version".data, .col, .strT "2023-06-01".data,
   .strT "x-api-key".data, .col, .lb, .idT "api_key".data, .rb,
   .rb]

/-- The same token stream with the missing comma inserted (what the
author presumably meant). -/
def anthHeaderToksFixed : List PyTok :=
  [.lb,
   .strT "Content-Type".data, .col, .strT "application/json".data, .com,
   .strT "anthropic-version".data, .col, .strT "2023-06-01".data, .com,
   .strT "x-api-key".data, .col, .lb, .idT "api_key".data, .rb,
   .rb]

example : pyExprOfToks anthHeaderToks = none := rfl
example :
    pyExprOfToks anthHeaderToksFixed =
      some (.dictE [(.strE "Content-Type".data, .strE "application/json".data),
                    (.strE "anthropic-version".data, .strE "2023-06-01".data),
                    (.strE "x-api-key".data, .setE [.varE "api_key".data])]) := rfl

/-! ## Helper lemmas -/

theorem dropWhile_cons_false {p : Char → Bool} {a : Char} {l : List Char}
    (h : p a = false) : List.dropWhile p (a :: l) = a :: l := by
  simp [List.dropWhile_cons, h]

theorem trimLead_noop {l : List Char} {c : Char} (hh : l.head? = some c)
    (hw : pyWsB c = false) : trimLead l = l := by
  cases l with
  | nil => rfl
  | cons a r =>
    simp only [List.head?_cons, Option.some.injEq] at hh
    subst hh
    exact dropWhile_cons_false hw

theorem trimTrail_noop {l : List Char} {c : Char} (hh : l.getLast? = some c)
    (hw : pyWsB c = false) : trimTrail l = l := by
  unfold trimTrail
  have hrev : l.reverse.head? = some c := by rw [List.head?_reverse]; exact hh
  cases hr : l.reverse with
  | nil => rw [hr] at hrev; simp at hrev
  | cons a r =>
    rw [hr] at hrev
    simp only [List.head?_cons, Option.some.injEq] at hrev
    subst hrev
    rw [dropWhile_cons_false hw, ← hr, List.reverse_reverse]

theorem pyStrip_noop {l : List Char} {c c' : Char} (hh : l.head? = some c)
    (hw : pyWsB c = false) (hl : l.getLast? = some c') (hw' : pyWsB c' = false) :
    pyStrip l = l := by
  unfold pyStrip
  rw [trimTrail_noop hl hw', trimLead_noop hh hw]

theorem jsonExtractRe_self {l : List Char} (hh : l.head? = some '{')
    (hl : l.getLast? = some '}') : jsonExtractRe l = some l := by
  have ha : l.dropWhile (fun c => c != '{') = l := by
    cases l with
    | nil => rfl
    | cons a r =>
      simp only [List.head?_cons, Option.some.injEq] at hh
      subst hh
      exact dropWhile_cons_false (by decide)
  have hrev : l.reverse.head? = some '}' := by rw [List.head?_reverse]; exact hl
  have hb : l.reverse.dropWhile (fun c => c != '}') = l.reverse := by
    cases hr : l.reverse with
    | nil => rfl
    | cons a r =>
      rw [hr] at hrev
      simp only [List.head?_cons, Option.some.injEq] at hrev
      subst hrev
      exact dropWhile_cons_false (by decide)
  have hne : l ≠ [] := by
    intro h
    rw [h] at hh
    simp at hh
  simp only [jsonExtractRe, ha, hb, List.reverse_reverse]
  simp [hne]

theorem mdStrip_noop {l : List Char} (hh : l.head? = some '{')
    (hl : l.getLast? = some '}') : mdStrip l = l := by
  obtain ⟨r, rfl⟩ : ∃ r, l = '{' :: r := by
    cases l with
    | nil => simp at hh
    | cons a r =>
      simp only [List.head?_cons, Option.some.injEq] at hh
      exact ⟨r, by rw [hh]⟩
  have hrev : ('{' :: r).reverse.head? = some '}' := by
    rw [List.head?_reverse]; exact hl
  unfold mdStrip
  have h1 : ([btick, btick, btick] ++ "json".data).isPrefixOf ('{' :: r) = false := by
    simp [List.isPrefixOf, btick]
  have h2 : ([btick, btick, btick]).isPrefixOf ('{' :: r) = false := by
    simp [List.isPrefixOf, btick]
  have h3 : ([btick, btick, btick]).isPrefixOf (('{' :: r).reverse) = false := by
    cases hr : ('{' :: r).reverse with
    | nil => simp at hr
    | cons a q =>
      rw [hr] at hrev
      simp only [List.head?_cons, Option.some.injEq] at hrev
      subst hrev
      simp [List.isPrefixOf, btick]
  simp only [h1, h2, h3, if_false, Bool.false_eq_true]

example : mdStrip "\x7bx\x7d".data = "\x7bx\x7d".data := rfl

theorem hasKeys_pair (a b : PyVal) :
    hasKeyPy (.dict [(hKey, a), (rKey, b)]) hKey = true ∧
    hasKeyPy (.dict [(hKey, a), (rKey, b)]) rKey = true := by
  refine ⟨rfl, ?_⟩
  have hne : (hKey = rKey) = False := by simp [hKey, rKey]
  simp [hasKeyPy, pyGet, pyFind, hne]

/-- The strict-parse success path of `_call_deepseek_api`: when the
extracted substring parses and carries sized `headers`/`rows` values,
the parsed document is returned as-is. -/
theorem deepseekNormalize_strict {content t : List Char} {d : PyVal} {p : Nat}
    {hs rs : List PyVal}
    (he : extractStage content = some t) (hp : pyLoads t = some d)
    (h4 : pyGet d hKey = some (.list hs)) (h5 : pyGet d rKey = some (.list rs)) :
    deepseekNormalize content p = some d := by
  unfold deepseekNormalize
  rw [he]
  dsimp only
  rw [hp]
  dsimp only
  have hk1 : hasKeyPy d hKey = true := by simp [hasKeyPy, h4]
  have hk2 : hasKeyPy d rKey = true := by simp [hasKeyPy, h5]
  rw [hk1, hk2, h4, h5]
  rfl

/-- Python `str.replace(pat, rep)` is the identity when the pattern starts with a
backtick and the subject contains none. -/
theorem replaceAllF_no_btick {pat rep : List Char}
    (hp : pat.head? = some btick) :
    ∀ (f : Nat) (s : List Char), s.all (fun c => c != btick) = true →
      replaceAllF pat rep f s = s := by
  obtain ⟨pt, rfl⟩ : ∃ pt, pat = btick :: pt := by
    cases pat with
    | nil => simp at hp
    | cons a q =>
      simp only [List.head?_cons, Option.some.injEq] at hp
      exact ⟨q, by rw [hp]⟩
  intro f
  induction f with
  | zero => intro s _; rfl
  | succ f ih =>
    intro s hs
    cases s with
    | nil => rfl
    | cons c rest =>
      simp only [List.all_cons, Bool.and_eq_true, bne_iff_ne, ne_eq] at hs
      have hpre : (btick :: pt).isPrefixOf (c :: rest) = false := by
        simp [List.isPrefixOf]
        intro h
        exact absurd h.symm hs.1
      unfold replaceAllF
      rw [hpre]
      simp only [Bool.false_and, Bool.false_eq_true, if_false]
      rw [ih rest (by simp [List.all_eq_true] at hs ⊢; exact hs.2)]

theorem replaceAll_no_btick {pat rep s : List Char}
    (hp : pat.head? = some btick) (hs : s.all (fun c => c != btick) = true) :
    replaceAll pat rep s = s :=
  replaceAllF_no_btick hp _ s hs

theorem runDriverAux_eq (proc : β → Nat → γ) :
    ∀ (pages : List β) (i : Nat) (acc : List γ),
      runDriverAux proc pages i acc = acc ++ seqOutcomes proc i pages := by
  intro pages
  induction pages with
  | nil => intro i acc; simp [runDriverAux, seqOutcomes]
  | cons pg rest ih =>
    intro i acc
    simp [runDriverAux, seqOutcomes, ih rest.length.succ, ih (i + 1)]

theorem seqOutcomes_length (proc : β → Nat → γ) :
    ∀ (i : Nat) (pages : List β), (seqOutcomes proc i pages).length = pages.length := by
  intro i pages
  induction pages generalizing i with
  | nil => rfl
  | cons pg rest ih => simp [seqOutcomes, ih]

theorem seqOutcomes_const_none (proc : β → Nat → Option PyVal)
    (hp : ∀ b i, proc b i = none) :
    ∀ (i : Nat) (pages : List β),
      seqOutcomes proc i pages = List.replicate pages.length none := by
  intro i pages
  induction pages generalizing i with
  | nil => rfl
  | cons pg rest ih => simp [seqOutcomes, List.replicate, hp, ih]

theorem anthDriverAux_all_yes (proc : β → Nat → γ) :
    ∀ (pages : List β) (i : Nat) (acc : List γ),
      anthDriverAux proc (fun _ => true) pages i acc =
        acc ++ seqOutcomes proc i pages := by
  intro pages
  induction pages with
  | nil => intro i acc; simp [anthDriverAux, seqOutcomes]
  | cons pg rest ih =>
    intro i acc
    cases rest with
    | nil => simp [anthDriverAux, seqOutcomes]
    | cons b bs =>
      show anthDriverAux proc (fun _ => true) (b :: bs) (i + 1)
          (acc ++ [proc pg i]) = acc ++ seqOutcomes proc i (pg :: b :: bs)
      rw [ih]
      simp [seqOutcomes]

theorem mkSheets_snd (v : List α) : ∀ i, (mkSheets i v).map Prod.snd = v := by
  induction v with
  | nil => intro i; rfl
  | cons a r ih => intro i; simp [mkSheets, ih]

theorem mkSheets_length (v : List α) : ∀ i, (mkSheets i v).length = v.length := by
  induction v with
  | nil => intro i; rfl
  | cons a r ih => intro i; simp [mkSheets, ih]

theorem mkSheets_fst (v : List α) :
    ∀ i, (mkSheets i v).map Prod.fst =
      (List.range v.length).map (fun k => sheetTitle (i + k)) := by
  induction v with
  | nil => intro i; rfl
  | cons a r ih =>
    intro i
    rw [List.length_cons, List.range_succ_eq_map]
    simp only [mkSheets, List.map_cons, List.map_map]
    rw [ih (i + 1)]
    rw [Nat.add_zero]
    refine congrArg (List.cons (sheetTitle i)) ?_
    refine List.map_congr_left (fun k _ => ?_)
    simp only [Function.comp_apply]
    exact congrArg sheetTitle (by omega)

theorem mkRows_row_length (n : Nat) (ls : List (List Char)) :
    ∀ row ∈ mkRows n ls, row.length = n := by
  intro row hrow
  simp only [mkRows, List.mem_filterMap] at hrow
  obtain ⟨l, _, hf⟩ := hrow
  split at hf
  · exact absurd hf (by simp)
  · split at hf
    · obtain rfl : _ = row := Option.some.inj hf
      simp only [List.length_take]
      omega
    · split at hf
      · obtain rfl : _ = row := Option.some.inj hf
        simp only [List.length_append, List.length_replicate]
        omega
      · exact absurd hf (by simp)

theorem step3_none_iff (files : List (Option α)) :
    step3MergeExcel files = none ↔ files.filterMap id = [] := by
  unfold step3MergeExcel
  cases files with
  | nil => simp
  | cons f fs =>
    simp only [List.isEmpty_cons, Bool.false_eq_true, if_false]
    cases hv : (f :: fs).filterMap id with
    | nil => simp [hv]
    | cons v vs => simp [hv, mkSheets]

/-- The markdown fence wrapper of §8: triple backtick plus language tag,
newline, the payload, newline, closing fence. -/
def fenceWrap (x : List Char) : List Char :=
  "```json\n".data ++ x ++ "\n```".data

theorem fenceWrap_head (x : List Char) : (fenceWrap x).head? = some btick := rfl

theorem fenceWrap_getLast (x : List Char) :
    (fenceWrap x).getLast? = some btick := by
  unfold fenceWrap
  rw [List.getLast?_append, List.getLast?_append]
  rfl

theorem pyStrip_fenceWrap (x : List Char) : pyStrip (fenceWrap x) = fenceWrap x :=
  pyStrip_noop (fenceWrap_head x) (by decide) (fenceWrap_getLast x) (by decide)

theorem jsonExtractRe_fenceWrap {t : List Char} (hh : t.head? = some '{')
    (hl : t.getLast? = some '}') : jsonExtractRe (fenceWrap t) = some t := by
  obtain ⟨r, rfl⟩ : ∃ r, t = '{' :: r := by
    cases t with
    | nil => simp at hh
    | cons a q =>
      simp only [List.head?_cons, Option.some.injEq] at hh
      exact ⟨q, by rw [hh]⟩
  have ha : (fenceWrap ('{' :: r)).dropWhile (fun c => c != '{') =
      ('{' :: r) ++ "\n```".data := by
    unfold fenceWrap
    rw [List.append_assoc]
    rw [List.dropWhile_append_of_pos (by decide)]
    rw [List.cons_append]
    exact dropWhile_cons_false (by decide)
  have hrev : ('{' :: r).reverse.head? = some '}' := by
    rw [List.head?_reverse]; exact hl
  have hb : (('{' :: r) ++ "\n```".data).reverse.dropWhile (fun c => c != '}') =
      ('{' :: r).reverse := by
    rw [List.reverse_append]
    rw [List.dropWhile_append_of_pos (by decide)]
    cases hq : ('{' :: r).reverse with
    | nil => simp at hq
    | cons a q =>
      rw [hq] at hrev
      simp only [List.head?_cons, Option.some.injEq] at hrev
      subst hrev
      exact dropWhile_cons_false (by decide)
  unfold jsonExtractRe
  simp only [ha, hb, List.reverse_reverse]
  simp

theorem extractStage_self {s : List Char} (hh : (pyStrip s).head? = some '{')
    (hl : (pyStrip s).getLast? = some '}') :
    extractStage s = some (pyStrip s) := by
  unfold extractStage
  rw [jsonExtractRe_self hh hl, Option.map_some']
  rw [pyStrip_noop hh (by decide) hl (by decide), mdStrip_noop hh hl]

theorem extractStage_fenceWrap {t : List Char} (hh : t.head? = some '{')
    (hl : t.getLast? = some '}') :
    extractStage (fenceWrap t) = some t := by
  unfold extractStage
  rw [pyStrip_fenceWrap, jsonExtractRe_fenceWrap hh hl, Option.map_some']
  rw [pyStrip_noop hh (by decide) hl (by decide), mdStrip_noop hh hl]

/-- The strict-parse success path of `_call_gemini_api`: a backtick-free
valid response with sized `headers`/`rows` is returned as parsed. -/
theorem geminiNormalize_strict {s : List Char} {d : PyVal} {hs rs : List PyVal}
    (hh : (pyStrip s).head? = some '{') (hl : (pyStrip s).getLast? = some '}')
    (hnb : (pyStrip s).all (fun c => c != btick) = true)
    (hp : pyLoads (pyStrip s) = some d)
    (h4 : pyGet d hKey = some (.list hs)) (h5 : pyGet d rKey = some (.list rs)) :
    geminiNormalize s = some d := by
  have hsne : s.isEmpty = false := by
    cases s with
    | nil => simp [pyStrip, trimLead, trimTrail] at hh
    | cons a r => simp
  unfold geminiNormalize
  rw [hsne]
  simp only [Bool.false_eq_true, if_false]
  rw [replaceAll_no_btick
        (show ([btick, btick, btick] ++ "json".data).head? = some btick from rfl) hnb,
      replaceAll_no_btick
        (show ([btick, btick, btick] : List Char).head? = some btick from rfl) hnb]
  rw [pyStrip_noop hh (by decide) hl (by decide)]
  rw [hp]
  dsimp only
  have hk1 : hasKeyPy d hKey = true := by simp [hasKeyPy, h4]
  have hk2 : hasKeyPy d rKey = true := by simp [hasKeyPy, h5]
  rw [hk1, hk2, h4, h5]
  rfl

/-! ## Claim theorems -/

/-- C1 counterexample: the gemini variant's normalization step surfaces a
plain parse failure as a per-page failure (`None`), not as a placeholder
table — refuting "the normalization step never fails". -/
theorem C1_counterexample : geminiNormalize "hello".data = none := rfl

/-- C1 (amended): the deepseek normalization step either (a) returns a
document carrying both a `headers` and a `rows` field, or (b) returns,
unvalidated, whatever document the syntax-repair stage managed to parse,
or (c) fails the page (returns `None`) — and (c) happens only when the
strict parse succeeded (the `len()` size check then being the only thing
left to fail).  The gemini variant, by contrast, surfaces every parse
failure as a per-page failure. -/
theorem C1_deepseek_normalize_shape (content : List Char) (p : Nat) :
    (∃ d, deepseekNormalize content p = some d ∧
      ((hasKeyPy d hKey = true ∧ hasKeyPy d rKey = true) ∨
       ∃ js, extractStage content = some js ∧ pyLoads js = none ∧
         pyLoads (applyFixes js) = some d)) ∨
    (∃ js d0, extractStage content = some js ∧ pyLoads js = some d0 ∧
      deepseekNormalize content p = none) := by
  unfold deepseekNormalize
  cases he : extractStage content with
  | none =>
    dsimp only
    left
    unfold extractTableFromText
    cases hc : extractCore (splitNl (pyStrip content)) with
    | none =>
      dsimp only
      exact ⟨notFoundPlaceholder p, rfl, Or.inl (hasKeys_pair _ _)⟩
    | some pr =>
      obtain ⟨hs, rows⟩ := pr
      dsimp only
      exact ⟨_, rfl, Or.inl (hasKeys_pair _ _)⟩
  | some js =>
    dsimp only
    cases hp : pyLoads js with
    | none =>
      dsimp only
      left
      unfold tryFixJson
      cases hf : pyLoads (applyFixes js) with
      | none =>
        dsimp only
        exact ⟨fixPlaceholder p, rfl, Or.inl (hasKeys_pair _ _)⟩
      | some d =>
        dsimp only
        exact ⟨d, rfl, Or.inr ⟨js, rfl, hp, hf⟩⟩
    | some d =>
      dsimp only
      cases hk : hasKeyPy d hKey && hasKeyPy d rKey with
      | false =>
        left
        exact ⟨structPlaceholder p, rfl, Or.inl (hasKeys_pair _ _)⟩
      | true =>
        cases hlen1 : pyLen ((pyGet d hKey).getD .null) with
        | none => right; exact ⟨js, d, rfl, hp, rfl⟩
        | some n1 =>
          cases hlen2 : pyLen ((pyGet d rKey).getD .null) with
          | none => right; exact ⟨js, d, rfl, hp, rfl⟩
          | some n2 =>
            left
            refine ⟨d, rfl, Or.inl ?_⟩
            simpa [Bool.and_eq_true] using hk

/-- C2 counterexample: a two-page run where page 1 failed yields a
one-sheet workbook (the failed page is skipped, not given a sheet), and
the surviving sheet is titled `"Trang 1"` by its position among the
*successes*, not `"Page 2"` by its page position. -/
theorem C2_counterexample :
    (step3MergeExcel [(none : Option Nat), some 0]).map List.length ≠ some 2 ∧
    step3MergeExcel [(none : Option Nat), some 0] =
      some [("Trang 1".data, 0)] := by
  exact ⟨by decide, rfl⟩

/-- C2 (amended): assembling a run produces one sheet per *successful*
page, in run order, each titled `"Trang k"` by its 1-based position in
the success subsequence (truncated at Excel's 31-character limit). -/
theorem C2_assemble_positional (files : List (Option α))
    (ws : List (List Char × α)) (h : step3MergeExcel files = some ws) :
    ws.map Prod.snd = files.filterMap id ∧
    ws.length = (files.filterMap id).length ∧
    ws.map Prod.fst = (List.range ws.length).map (fun k => sheetTitle (k + 1)) := by
  have hws : ws = mkSheets 1 (files.filterMap id) := by
    simp only [step3MergeExcel] at h
    split at h
    · exact absurd h (by simp)
    · split at h
      · exact absurd h (by simp)
      · split at h
        · exact absurd h (by simp)
        · exact (Option.some.inj h).symm
  subst hws
  refine ⟨mkSheets_snd _ 1, mkSheets_length _ 1, ?_⟩
  rw [mkSheets_fst _ 1, mkSheets_length _ 1]
  exact List.map_congr_left (fun k _ => congrArg sheetTitle (by omega))

/-- C2 witness: a 3-page run with one failure yields the two sheets of
the successes in order. -/
theorem C2_witness :
    step3MergeExcel [some (0 : Nat), none, some 1] =
      some [("Trang 1".data, 0), ("Trang 2".data, 1)] ∧
    ([("Trang 1".data, (0 : Nat)), ("Trang 2".data, 1)].map Prod.snd =
      [some (0 : Nat), none, some 1].filterMap id) :=
  ⟨rfl, (C2_assemble_positional [some 0, none, some 1] _ rfl).1⟩

/-- Counterexample input for C3: `\x7b'a': 1\x7d` (single-quoted key). -/
def c3In : List Char := "\x7b".data ++ [sqCh] ++ "a".data ++ [sqCh] ++ ": 1\x7d".data

/-- C3 counterexample: a document recovered by the syntax-repair stage is
returned without any field validation — `\x7b'a': 1\x7d` normalizes to the
field-less dict `\x7b"a": 1\x7d`, not to a labeled placeholder. -/
theorem C3_counterexample :
    deepseekNormalize c3In 9 = some (.dict [("a".data, .num "1".data)]) ∧
    hasKeyPy (.dict [("a".data, .num "1".data)]) hKey = false :=
  ⟨rfl, rfl⟩

/-- C3 (amended): only the strict-parse stage validates field presence:
a document parsed at that stage that lacks `headers` or `rows` yields
the labeled placeholder; a document recovered by the syntax-repair stage
is returned as-is. -/
theorem C3_strict_missing_field (content : List Char) (p : Nat)
    (js : List Char) (d : PyVal) (he : extractStage content = some js)
    (hp : pyLoads js = some d)
    (hk : (hasKeyPy d hKey && hasKeyPy d rKey) = false) :
    deepseekNormalize content p = some (structPlaceholder p) := by
  unfold deepseekNormalize
  rw [he]
  dsimp only
  rw [hp]
  dsimp only
  rw [hk]
  rfl

/-- C3 witness: `\x7b"a": 1\x7d` parses strictly but lacks both fields, so
the labeled placeholder is returned. -/
theorem C3_witness :
    deepseekNormalize "\x7b\"a\": 1\x7d".data 4 = some (structPlaceholder 4) :=
  C3_strict_missing_field "\x7b\"a\": 1\x7d".data 4 "\x7b\"a\": 1\x7d".data
    (.dict [("a".data, .num "1".data)]) rfl rfl rfl

/-- Counterexample input for C4: `\x7b"a": "it's<LF>ok"\x7d` with a literal
newline inside the string. -/
def c4In : List Char :=
  "\x7b\"a\": \"it".data ++ [sqCh] ++ "s".data ++ ['\n'] ++ "ok\"\x7d".data

/-- C4 counterexample: the code applies all four transformations and
parses once at the end, so the single-to-double-quote pass corrupts the
apostrophe and the stage yields the repair placeholder; the claimed
stop-at-first-success scheme would already succeed after the first
transformation and recover the data. -/
theorem C4_counterexample :
    tryFixJson c4In 1 = fixPlaceholder 1 ∧
    tryFixJsonFirstSuccess c4In 1 =
      .dict [("a".data,
        .str ("it".data ++ [sqCh] ++ "s".data ++ ['\n'] ++ "ok".data))] :=
  ⟨rfl, rfl⟩

/-- C4 (amended): the syntax-repair stage applies the four
transformations in the claimed order but re-attempts the parse only
once, after all four; this agrees with the claimed first-success scheme
exactly when none of the three intermediate parses would already
succeed. -/
theorem C4_repair_single_parse (js : List Char) (p : Nat)
    (h1 : pyLoads (escapeCtl js) = none)
    (h2 : pyLoads (bareKeySub (escapeCtl js)) = none)
    (h3 : pyLoads (sqToDq (bareKeySub (escapeCtl js))) = none) :
    tryFixJson js p = tryFixJsonFirstSuccess js p := by
  simp only [tryFixJson, tryFixJsonFirstSuccess, applyFixes, h1, h2, h3]

/-- Witness input for C4: bare keys and a trailing comma, repaired only
by the final transformation. -/
def c4Wit : List Char := "\x7bheaders: [\"A\"], rows: [[\"1\"],]\x7d".data

/-- C4 witness: on `c4Wit` every intermediate parse fails, and both the
code's repair and the first-success scheme recover the same table. -/
theorem C4_witness : tryFixJson c4Wit 2 = tryFixJsonFirstSuccess c4Wit 2 :=
  C4_repair_single_parse c4Wit 2 rfl rfl rfl

/-- Counterexample input for C5: a valid two-field document whose header
text contains a backtick fence sequence. -/
def c5In : List Char := "\x7b\"headers\": [\"a```b\"], \"rows\": []\x7d".data

/-- The value `json.loads` gives for `c5In`. -/
def c5True : PyVal := .dict [(hKey, .list [.str ("a```b".data)]), (rKey, .list [])]

/-- What the gemini normalizer actually returns for `c5In`: the global
backtick-fence deletion has corrupted the header string. -/
def c5Corrupt : PyVal := .dict [(hKey, .list [.str "ab".data]), (rKey, .list [])]

/-- Observation used to separate `c5True` from `c5Corrupt`. -/
def headObs (d : PyVal) : Option (List Char) :=
  match pyGet d hKey with
  | some (.list [.str s]) => some s
  | _ => none

/-- C5 counterexample: the gemini variant's fence stripping is a global
substring deletion, so normalization is not the identity on a valid
two-field input containing triple backticks inside a data string. -/
theorem C5_counterexample :
    pyLoads c5In = some c5True ∧ geminiNormalize c5In ≠ some c5True := by
  refine ⟨rfl, fun h => ?_⟩
  have e1 : (some c5Corrupt : Option PyVal) = some c5True := by
    have e0 : geminiNormalize c5In = some c5Corrupt := rfl
    rw [e0] at h
    exact h
  have e2 : c5Corrupt = c5True := Option.some.inj e1
  exact absurd (congrArg headObs e2) (by decide)

/-- C5 (amended): for every valid two-field structured input (an object
with list-valued `headers` and `rows`), the deepseek normalization is
the identity up to whitespace trimming; wrapping the trimmed input in a
markdown code fence gives the same result; and the gemini normalization
is also the identity, provided the trimmed input contains no backtick
(its fence stripping deletes ``` sequences anywhere). -/
theorem C5_roundtrip_and_fence (s : List Char) (p : Nat) (d : PyVal)
    (hs rs : List PyVal)
    (hh : (pyStrip s).head? = some '{') (hl : (pyStrip s).getLast? = some '}')
    (hp : pyLoads (pyStrip s) = some d)
    (h4 : pyGet d hKey = some (.list hs)) (h5 : pyGet d rKey = some (.list rs)) :
    deepseekNormalize s p = some d ∧
    deepseekNormalize (fenceWrap (pyStrip s)) p = some d ∧
    ((pyStrip s).all (fun c => c != btick) = true → geminiNormalize s = some d) :=
  ⟨deepseekNormalize_strict (extractStage_self hh hl) hp h4 h5,
   deepseekNormalize_strict (extractStage_fenceWrap hh hl) hp h4 h5,
   fun hnb => geminiNormalize_strict hh hl hnb hp h4 h5⟩

/-- Witness input for C5: a valid two-field document with surrounding
whitespace. -/
def c5Wit : List Char :=
  "  \x7b\"headers\": [\"A\"], \"rows\": [[\"1\"]]\x7d ".data

/-- The parsed value of `c5Wit`. -/
def c5WitVal : PyVal :=
  .dict [(hKey, .list [.str "A".data]), (rKey, .list [.list [.str "1".data]])]

/-- C5 witness: round-trip, fence unwrap and gemini agreement on a
concrete valid input. -/
theorem C5_witness :
    deepseekNormalize c5Wit 3 = some c5WitVal ∧
    deepseekNormalize (fenceWrap (pyStrip c5Wit)) 3 = some c5WitVal ∧
    geminiNormalize c5Wit = some c5WitVal := by
  have h := C5_roundtrip_and_fence c5Wit 3 c5WitVal
    [.str "A".data] [.list [.str "1".data]] rfl rfl rfl rfl rfl
  exact ⟨h.1, h.2.1, h.2.2 rfl⟩

/-- C6: the delimited-text fallback takes the first line that splits
(on tab, comma, or whitespace runs) into two or more parts, all
non-empty after stripping, as the header line; every later line that is
non-empty after stripping becomes a row, truncated to the header count
when it has at least that many parts and padded with empty strings
otherwise — so every produced row has exactly the header count of
cells. -/
theorem C6_delimited_fallback (lines : List (List Char))
    (hdrs : List (List Char)) (rows : List (List (List Char)))
    (hx : extractCore lines = some (hdrs, rows)) :
    (∃ pre l post, lines = pre ++ l :: post ∧
      (∀ l' ∈ pre, linePredB l' = false) ∧ linePredB l = true ∧
      hdrs = mkHeaders l ∧ rows = mkRows hdrs.length post) ∧
    ∀ row ∈ rows, row.length = hdrs.length := by
  revert hdrs rows
  induction lines with
  | nil => intro hdrs rows hx; simp [extractCore] at hx
  | cons l rest ih =>
    intro hdrs rows hx
    by_cases hl : linePredB l = true
    · simp only [extractCore, hl, if_true] at hx
      simp only [Option.some.injEq, Prod.mk.injEq] at hx
      obtain ⟨rfl, rfl⟩ := hx.symm.imp Eq.symm Eq.symm
      refine ⟨⟨[], l, rest, rfl, by simp, hl, rfl, rfl⟩, ?_⟩
      exact mkRows_row_length _ _
    · have hl' : linePredB l = false := by
        cases hb : linePredB l
        · rfl
        · exact absurd hb hl
      simp only [extractCore, hl', Bool.false_eq_true, if_false] at hx
      obtain ⟨⟨pre, l', post, hEq, hPre, hLP, hH, hR⟩, hRows⟩ := ih hdrs rows hx
      refine ⟨⟨l :: pre, l', post, by rw [hEq]; rfl, ?_, hLP, hH, hR⟩, hRows⟩
      intro x hmem
      rcases List.mem_cons.mp hmem with hx1 | hx2
      · rw [hx1]; exact hl'
      · exact hPre x hx2

/-- C6 witness: the spec's scenario `Col1\tCol2\nval1\tval2`. -/
theorem C6_witness :
    extractCore (splitNl (pyStrip "Col1\tCol2\nval1\tval2".data)) =
      some (["Col1".data, "Col2".data], [["val1".data, "val2".data]]) ∧
    ∀ row ∈ [["val1".data, "val2".data]],
      row.length = (["Col1".data, "Col2".data] : List (List Char)).length :=
  ⟨rfl, (C6_delimited_fallback (splitNl (pyStrip "Col1\tCol2\nval1\tval2".data))
      ["Col1".data, "Col2".data] [["val1".data, "val2".data]] rfl).2⟩

/-- C7 counterexample: the anthropic driver's interactive continuation
prompt truncates the run when declined — a two-page document yields a
one-entry outcome sequence, not one entry per source page. -/
theorem C7_counterexample :
    (anthDriver (fun (_ : Nat) _ => (none : Option PyVal)) (fun _ => false)
      [0, 1]).length ≠ 2 := by decide

/-- C7 (amended): the deepseek/gemini driver processes pages strictly
sequentially in document order with one processing call per page, never
retrying, recording each page's outcome exactly once, so the outcome
sequence has one entry per source page; the anthropic driver behaves the
same only when every inter-page prompt is confirmed, a declined prompt
truncating the run after the current page. -/
theorem C7_driver_sequential (proc : β → Nat → γ) (pages : List β) :
    runDriver proc pages = seqOutcomes proc 1 pages ∧
    (runDriver proc pages).length = pages.length ∧
    anthDriver proc (fun _ => true) pages = seqOutcomes proc 1 pages := by
  have h1 : runDriver proc pages = seqOutcomes proc 1 pages := by
    have := runDriverAux_eq proc pages 1 []
    simpa [runDriver] using this
  refine ⟨h1, ?_, ?_⟩
  · rw [h1]; exact seqOutcomes_length proc 1 pages
  · have := anthDriverAux_all_yes proc pages 1 []
    simpa [anthDriver] using this

/-- C8 counterexample: a run whose only page failed produces no workbook,
and the process still exits with status 0 — there is no empty-run abort
with a non-zero exit. -/
theorem C8_counterexample :
    deepseekMainModel (β := Nat) none (fun _ => none) [0] = (none, 0) := rfl

/-- C8 (amended): the merge step yields no workbook exactly when zero
sheets would be produced (every outcome missing, or no outcome at all);
this is reported as a `None` return to the caller, and the process exit
status is 0 regardless. -/
theorem C8_merge_none_iff :
    (∀ (α : Type) (files : List (Option α)),
      step3MergeExcel files = none ↔ files.filterMap id = []) ∧
    (∀ (β : Type) (key : Option (List Char)) (net : Nat → Option (List Char))
      (doc : List β), (deepseekMainModel key net doc).2 = 0) := by
  refine ⟨fun α files => ?_, fun β key net doc => rfl⟩
  unfold step3MergeExcel
  cases files with
  | nil => simp
  | cons f fs =>
    simp only [List.isEmpty_cons, Bool.false_eq_true, if_false]
    cases hv : (f :: fs).filterMap id with
    | nil => simp [hv]
    | cons v vs => simp [hv, mkSheets]

/-- C9 counterexample: with no credential configured, the run still
splits the document (one page file produced) and still attempts the
page, recording a failed outcome — nothing is surfaced before page
processing. -/
theorem C9_counterexample :
    (deepseekRunFull (β := Nat) none (fun _ => none) [7]).pageFiles ≠ [] ∧
    (deepseekRunFull (β := Nat) none (fun _ => none) [7]).outcomes.length = 1 := by
  exact ⟨by decide, rfl⟩

/-- C9 (amended): an absent credential produces only a console warning at
construction; the run proceeds — the document is still split into its
pages, and every page's extraction call fails fast at the key check, so
each outcome is a per-page failure (`None`). -/
theorem C9_absent_key_run (net : Nat → Option (List Char)) (doc : List β) :
    (deepseekRunFull none net doc).pageFiles = doc ∧
    (deepseekRunFull none net doc).outcomes = List.replicate doc.length none := by
  refine ⟨rfl, ?_⟩
  show runDriver (fun _ i => deepseekApiCall none net i) doc = _
  have h1 : runDriver (fun _ i => deepseekApiCall none net i) doc =
      seqOutcomes (fun _ i => deepseekApiCall none net i) 1 doc := by
    have := runDriverAux_eq (fun (_ : β) i => deepseekApiCall none net i) doc 1 []
    simpa [runDriver] using this
  rw [h1]
  exact seqOutcomes_const_none _ (fun b i => rfl) 1 doc

/-- C10 counterexample: the header expression of the anthropic variant
does not denote a dict at all — it is not syntactically valid Python, so
no mapping with the concatenated key `"2023-06-01x-api-key"` (or any
other) is ever built. -/
theorem C10_counterexample :
    ¬ ∃ kvs, pyExprOfToks anthHeaderToks = some (PyExpr.dictE kvs) := by
  intro h
  obtain ⟨kvs, hk⟩ := h
  rw [show pyExprOfToks anthHeaderToks = none from rfl] at hk
  exact Option.noConfusion hk

/-- C10 (amended): the header construction at lines 98–102 of the
anthropic variant is a Python syntax error: after implicit concatenation
of the adjacent string literals, the entry reads
`"anthropic-version": "2023-06-01x-api-key" : \x7bapi_key\x7d`, and the
stray colon fails the dict-display grammar.  The module therefore cannot
load, so no page of this variant can ever produce a Success outcome.
Inserting the missing comma would instead give a dict carrying the
`x-api-key` entry (with a set-typed value). -/
theorem C10_header_syntax_error :
    pyExprOfToks anthHeaderToks = none ∧
    pyExprOfToks anthHeaderToksFixed =
      some (.dictE
        [(.strE "Content-Type".data, .strE "application/json".data),
         (.strE "anthropic-version".data, .strE "2023-06-01".data),
         (.strE "x-api-key".data, .setE [.varE "api_key".data])]) :=
  ⟨rfl, rfl⟩
